import Mathlib

/-!
Verification development for the news-service repository.

Shallow embedding conventions:
* Go float64 values that only ever take part in ordering, equality and
  field arithmetic (relevance scores, search scores, intent confidences,
  publication timestamps, score thresholds) are modelled as rationals so
  that the embedded operations stay executable and decidable.
* Go float64 values that flow through transcendental functions
  (coordinates, haversine distances, trending decay factors) are modelled
  as real numbers.
* Go slices become lists, Go nil-able pointers become options, Go
  (value, error) pairs become Except values.
* Iteration over Go maps and Redis sets has unspecified order; such
  candidate sets are passed in as lists, the list order standing for the
  iteration order actually observed.
-/

/-- Leading-segment test on character lists: charsLeading sub s is true
iff sub is an initial segment of s. -/
def charsLeading : List Char → List Char → Bool
  | [], _ => true
  | _ :: _, [] => false
  | c :: cs, d :: ds => c == d && charsLeading cs ds

/-- Occurrence test on character lists: charsContain sub s is true iff
sub occurs contiguously somewhere in s. -/
def charsContain (sub : List Char) : List Char → Bool
  | [] => charsLeading sub []
  | c :: rest => charsLeading sub (c :: rest) || charsContain sub rest

/-- Substring test, mirroring strings.Contains from the Go standard
library: goContains s sub is true iff sub occurs contiguously in s. -/
def goContains (s sub : String) : Bool :=
  charsContain sub.toList s.toList

/-- Character-wise ASCII lowercasing, modelling strings.ToLower on the
ASCII-only strings this code compares; defined structurally so that it
reduces during kernel evaluation. -/
def goToLower (s : String) : String :=
  String.mk (s.data.map Char.toLower)

/-- Intent mirrors llm.Intent (client.go): a labelled intent candidate
with a confidence. -/
structure Intent where
  type : String
  confidence : ℚ
deriving Repr, DecidableEq

/-- Extraction mirrors llm.Extraction (client.go): the structured output
of the intent classifier.  The nested Entities struct is flattened into
the three entity lists. -/
structure Extraction where
  people : List String
  orgs : List String
  locations : List String
  concepts : List String
  intent : List Intent
  radiusKm : Option ℝ
  sourceNames : List String
  categories : List String

/-- QueryRequest mirrors news.QueryRequest (client.go). -/
structure QueryRequest where
  query : String
  lat : Option ℝ
  lon : Option ℝ
  radius : Option ℝ
  limit : Nat

/-- getBestIntent mirrors NewsService.getBestIntent (client.go lines
224-240): the empty intent list yields "search"; otherwise a fold keeps
the current best and replaces it only on strictly greater confidence, so
the earliest intent wins ties. -/
def getBestIntent (e : Extraction) : String :=
  match e.intent with
  | [] => "search"
  | first :: rest =>
    (rest.foldl (fun best cur =>
      if best.confidence < cur.confidence then cur else best) first).type

/-- getAllEntities mirrors NewsService.getAllEntities (client.go lines
243-252): people, organizations, locations, concepts, categories and
source names concatenated in that order. -/
def getAllEntities (e : Extraction) : List String :=
  e.people ++ e.orgs ++ e.locations ++ e.concepts ++ e.categories ++ e.sourceNames

/-- The recognized source names hard-coded in hasSourceEntities and
isSource (client.go). -/
def knownSources : List String :=
  ["new york times", "reuters", "bbc", "cnn", "dw", "technews", "globalnews", "financedaily"]

/-- The recognized category names hard-coded in hasCategoryEntities and
isCategory (client.go). -/
def knownCategories : List String :=
  ["technology", "business", "sports", "health", "science", "environment", "politics", "entertainment"]

/-- hasSourceEntities mirrors NewsService.hasSourceEntities (client.go
lines 255-265). -/
def hasSourceEntities (entities : List String) : Bool :=
  entities.any (fun en => knownSources.any (fun src => goContains (goToLower en) src))

/-- hasCategoryEntities mirrors NewsService.hasCategoryEntities
(client.go lines 268-278). -/
def hasCategoryEntities (entities : List String) : Bool :=
  entities.any (fun en => knownCategories.any (fun cat => goContains (goToLower en) cat))

/-- determineStrategy mirrors NewsService.determineStrategy (client.go
lines 191-221). -/
def determineStrategy (e : Extraction) (req : QueryRequest) : String :=
  match req.lat, req.lon with
  | some _, some _ => "nearby"
  | _, _ =>
    let best := goToLower (getBestIntent e)
    if best = "category" ∨ best = "topic" then "category"
    else if best = "source" ∨ best = "publisher" then "source"
    else if best = "score" ∨ best = "relevance" then "score"
    else if best = "nearby" ∨ best = "location" ∨ best = "local" then "nearby"
    else if best = "search" ∨ best = "query" then "search"
    else
      let allEntities := getAllEntities e
      if hasSourceEntities allEntities then "source"
      else if hasCategoryEntities allEntities then "category"
      else "search"

/-- Synonym table from the spec (section 4.2, step 2), applied to the
lowercased best intent label. -/
def intentSynonym (label : String) : Option String :=
  if label = "category" ∨ label = "topic" then some "category"
  else if label = "source" ∨ label = "publisher" then some "source"
  else if label = "score" ∨ label = "relevance" then some "score"
  else if label = "nearby" ∨ label = "location" ∨ label = "local" then some "nearby"
  else if label = "search" ∨ label = "query" then some "search"
  else none

/-- Strategy selector written from the spec's decision order, amended at
exactly one point: an empty intent list yields "search" directly (the
entity scan of step 3 is reached only when a best intent label exists but
matches no synonym).  The best label is List.argmax on confidence, whose
documented semantics is highest value with the earliest occurrence
winning ties. -/
def specSelector (e : Extraction) (req : QueryRequest) : String :=
  match req.lat, req.lon with
  | some _, some _ => "nearby"
  | _, _ =>
    match e.intent.argmax Intent.confidence with
    | none => "search"
    | some best =>
      match intentSynonym (goToLower best.type) with
      | some s => s
      | none =>
        let allEntities := getAllEntities e
        if hasSourceEntities allEntities then "source"
        else if hasCategoryEntities allEntities then "category"
        else "search"

/-- Article mirrors repo.Article (the repository record shape). -/
structure Article where
  id : String
  title : String
  description : Option String
  url : String
  publicationDate : ℚ
  sourceName : String
  category : List String
  relevanceScore : ℚ
  latitude : Option ℝ
  longitude : Option ℝ

/-- ArticleDTO mirrors news.ArticleDTO (client.go lines 98-112). -/
structure ArticleDTO where
  id : String
  title : String
  description : Option String
  url : String
  publicationDate : ℚ
  sourceName : String
  category : List String
  relevanceScore : ℚ
  llmSummary : Option String
  latitude : Option ℝ
  longitude : Option ℝ
  distanceMeters : Option ℝ
  searchScore : Option ℚ

/-- SearchArticlesRow mirrors repo.SearchArticlesRow. -/
structure SearchArticlesRow where
  article : Article
  searchScore : ℚ

/-- GetNearbyArticlesRow mirrors repo.GetNearbyArticlesRow. -/
structure GetNearbyArticlesRow where
  article : Article
  distanceMeters : ℝ

/-- convertToDTO mirrors NewsService.convertToDTO (client.go lines
532-545); the summary, distance and search-score fields start absent. -/
def convertToDTO (a : Article) : ArticleDTO :=
  { id := a.id, title := a.title, description := a.description, url := a.url,
    publicationDate := a.publicationDate, sourceName := a.sourceName,
    category := a.category, relevanceScore := a.relevanceScore,
    llmSummary := none, latitude := a.latitude, longitude := a.longitude,
    distanceMeters := none, searchScore := none }

/-- Stable insertion of one element in front of the first position whose
current occupant is not strictly less than it. -/
def insertSorted (less : α → α → Bool) (x : α) : List α → List α
  | [] => [x]
  | y :: ys => if less y x then y :: insertSorted less x ys else x :: y :: ys

/-- Model of Go sort.Slice as a stable insertion sort driven by the same
boolean comparator.  Go's sort.Slice documents no stability guarantee;
stability facts proved below are therefore facts of this model, while
permutation and orderedness facts match what sort.Slice delivers for
consistent comparators. -/
def sortSlice (less : α → α → Bool) (l : List α) : List α :=
  l.foldr (insertSorted less) []

/-- Four-quadrant arctangent with the case split of Go math.Atan2. -/
noncomputable def atan2 (y x : ℝ) : ℝ :=
  if 0 < x then Real.arctan (y / x)
  else if x < 0 then
    (if 0 ≤ y then Real.arctan (y / x) + Real.pi else Real.arctan (y / x) - Real.pi)
  else if 0 < y then Real.pi / 2
  else if y < 0 then -(Real.pi / 2)
  else 0

/-- haversineDistance mirrors the identical helper in the repository
layer (part_004 lines 572-589) and in trending/scorer.go lines 228-243:
great-circle distance on a sphere of radius 6371. -/
noncomputable def haversineDistance (lat1 lon1 lat2 lon2 : ℝ) : ℝ :=
  let lat1Rad := lat1 * Real.pi / 180
  let lat2Rad := lat2 * Real.pi / 180
  let deltaLat := (lat2 - lat1) * Real.pi / 180
  let deltaLon := (lon2 - lon1) * Real.pi / 180
  let a := Real.sin (deltaLat / 2) * Real.sin (deltaLat / 2) +
    Real.cos lat1Rad * Real.cos lat2Rad *
      (Real.sin (deltaLon / 2) * Real.sin (deltaLon / 2))
  let c := 2 * atan2 (Real.sqrt a) (Real.sqrt (1 - a))
  6371 * c

/-- Shared shape of the collection loops in the repository layer
(part_004): walk the candidates in iteration order, keep those the
filter accepts, and break out as soon as the accumulator reaches the
limit.  The break test sits after the append, exactly as in the Go
loops. -/
def collectLimit (f : α → Option β) (lim : Nat) (acc : List β) : List α → List β
  | [] => acc
  | a :: rest =>
    match f a with
    | some b =>
      let acc' := acc ++ [b]
      if lim ≤ acc'.length then acc' else collectLimit f lim acc' rest
    | none => collectLimit f lim acc rest

/-- Per-candidate test and row construction of repository SearchArticles
(part_004 lines 374-455): case-folded containment in title or
description, additive score 0.7 (title) + 0.3 (description) + 0.2 times
the relevance score. -/
def searchRow (query : String) (a : Article) : Option SearchArticlesRow :=
  let titleMatch := goContains (goToLower a.title) query
  let descMatch :=
    match a.description with
    | some d => goContains (goToLower d) query
    | none => false
  if titleMatch || descMatch then
    some { article := a,
           searchScore :=
             (if titleMatch then (7 : ℚ)/10 else 0) +
             (if descMatch then (3 : ℚ)/10 else 0) +
             a.relevanceScore * (2/10) }
  else none

/-- SearchArticles mirrors repository.SearchArticles (part_004 lines
374-455): the candidate list stands for the store's iteration order; the
query is lowercased once, matches are collected with an early break at
the limit, and no ordering is applied here. -/
def SearchArticles (articles : List Article) (query : String) (lim : Nat) :
    List SearchArticlesRow :=
  collectLimit (searchRow (goToLower query)) lim [] articles

/-- GetArticlesByScore mirrors repository.GetArticlesByScore (part_004
lines 338-371): keep articles with relevanceScore at least the minimum,
breaking at the limit. -/
def GetArticlesByScore (articles : List Article) (min : ℚ) (lim : Nat) :
    List Article :=
  collectLimit (fun a => if min ≤ a.relevanceScore then some a else none) lim [] articles

/-- Per-candidate test and row construction of repository
GetNearbyArticles: articles with coordinates whose haversine distance is
within the radius, the distance surfaced in meters. -/
noncomputable def nearbyRow (lat lon radius : ℝ) (a : Article) :
    Option GetNearbyArticlesRow :=
  match a.latitude, a.longitude with
  | some alat, some alon =>
    let distance := haversineDistance lat lon alat alon
    if distance ≤ radius then some { article := a, distanceMeters := distance * 1000 }
    else none
  | _, _ => none

/-- GetNearbyArticles mirrors repository.GetNearbyArticles (part_004
lines 458-505): collect in-radius rows with an early break at the limit,
then sort the collected rows by ascending distance. -/
noncomputable def GetNearbyArticles (articles : List Article)
    (lat lon radius : ℝ) (lim : Nat) : List GetNearbyArticlesRow :=
  sortSlice (fun r1 r2 => decide (r1.distanceMeters < r2.distanceMeters))
    (collectLimit (nearbyRow lat lon radius) lim [] articles)

/-- Numeric value of a run of decimal digit characters. -/
def digitsToNat (ds : List Char) : Nat :=
  ds.foldl (fun n c => 10 * n + (c.toNat - '0'.toNat)) 0

/-- Leftmost match of the Go regular expression (\d+\.?\d*) over a
character list (client.go line 337): scan to the first digit, take the
maximal digit run, then an optional dot followed by a maximal digit run.
FindStringSubmatch returns the submatch exactly when such a match
exists. -/
def firstNumberToken : List Char → Option (List Char)
  | [] => none
  | c :: rest =>
    if c.isDigit then
      match (c :: rest).dropWhile Char.isDigit with
      | d :: rest2 =>
        if d = '.' then
          some ((c :: rest).takeWhile Char.isDigit ++ '.' :: rest2.takeWhile Char.isDigit)
        else some ((c :: rest).takeWhile Char.isDigit)
      | [] => some ((c :: rest).takeWhile Char.isDigit)
    else firstNumberToken rest

/-- Value of a matched number token, modelling strconv.ParseFloat on the
tokens the regular expression can produce.  The exact decimal value is
used; the binary rounding of float64 is not modelled. -/
def parseGoFloat (tok : List Char) : ℚ :=
  let ip := tok.takeWhile Char.isDigit
  match tok.dropWhile Char.isDigit with
  | _ :: fp => (digitsToNat ip : ℚ) + (digitsToNat fp : ℚ) / 10 ^ fp.length
  | [] => (digitsToNat ip : ℚ)

/-- Threshold selection of NewsService.getArticlesByScore (client.go
lines 329-357): default 0.8; when the lowercased query contains "above"
or "threshold", the first number anywhere in the query is parsed and
overrides the default exactly when it lies in the closed interval
zero to one. -/
def minScoreOf (query : String) : ℚ :=
  if goContains (goToLower query) "above" || goContains (goToLower query) "threshold" then
    match firstNumberToken (goToLower query).toList with
    | some tok =>
      if 0 ≤ parseGoFloat tok ∧ parseGoFloat tok ≤ 1 then parseGoFloat tok
      else 4/5
    | none => 4/5
  else 4/5

/-- getArticlesByScore at the service layer (client.go lines 329-357):
threshold selection followed by the repository call and DTO conversion.
The candidate list stands for the store's iteration order. -/
def getArticlesByScoreClient (req : QueryRequest) (articles : List Article) :
    List ArticleDTO :=
  (GetArticlesByScore articles (minScoreOf req.query) req.limit).map convertToDTO

/-- Comparator of rankArticles for the category and source strategies
(client.go lines 472-476): publication date, most recent first. -/
def lessByDate (a b : ArticleDTO) : Bool :=
  decide (b.publicationDate < a.publicationDate)

/-- Comparator of rankArticles for the score strategy (client.go lines
477-481): relevance score, highest first. -/
def lessByRel (a b : ArticleDTO) : Bool :=
  decide (b.relevanceScore < a.relevanceScore)

/-- Comparator of rankArticles for the search strategy (client.go lines
482-489): search score highest first when both sides carry one,
otherwise relevance score highest first. -/
def lessBySearch (a b : ArticleDTO) : Bool :=
  match a.searchScore, b.searchScore with
  | some sa, some sb => decide (sb < sa)
  | _, _ => decide (b.relevanceScore < a.relevanceScore)

/-- Comparator of rankArticles for the nearby strategy (client.go lines
490-497): ascending distance when both sides carry one, otherwise
false, so an entry missing a distance compares as a tie with every
entry. -/
noncomputable def lessByDist (a b : ArticleDTO) : Bool :=
  match a.distanceMeters, b.distanceMeters with
  | some da, some db => decide (da < db)
  | _, _ => false

/-- rankArticles mirrors NewsService.rankArticles (client.go lines
470-501); the request argument is carried but unused, as in the
source. -/
noncomputable def rankArticles (articles : List ArticleDTO) (strategy : String)
    (_req : QueryRequest) : List ArticleDTO :=
  if strategy = "category" ∨ strategy = "source" then sortSlice lessByDate articles
  else if strategy = "score" then sortSlice lessByRel articles
  else if strategy = "search" then sortSlice lessBySearch articles
  else if strategy = "nearby" then sortSlice lessByDist articles
  else articles

/-- Summarizer capability: title, description, source name, publication
date to either a summary or an error.  The RFC3339 rendering of the
publication date is abstracted away: the summarizer receives the date
itself. -/
def Summarizer : Type :=
  String → String → String → ℚ → Except String String

/-- enrichArticles mirrors NewsService.enrichArticles (client.go lines
429-467).  The concurrent fan-out writes each goroutine's outcome into a
slot of a summaries array indexed by the article's original position,
with a failed call leaving the empty string; a second pass attaches each
nonempty slot.  The fan-in by original index makes the outcome
independent of goroutine completion order, so the two passes are
modelled directly. -/
def enrichArticles (summarize : Summarizer) (articles : List ArticleDTO) :
    List ArticleDTO :=
  let summaries := articles.map (fun art =>
    match summarize art.title (art.description.getD "") art.sourceName
        art.publicationDate with
    | .ok s => s
    | .error _ => "")
  (articles.zip summaries).map (fun p =>
    if p.2 ≠ "" then { p.1 with llmSummary := some p.2 } else p.1)

/-- Single-pass description of enrichment from the spec (section 4.6): a
result keeps all its fields and gains a summary exactly when its own
summarization call succeeds with nonempty text. -/
def applySummary (summarize : Summarizer) (a : ArticleDTO) : ArticleDTO :=
  match summarize a.title (a.description.getD "") a.sourceName
      a.publicationDate with
  | .ok s => if s ≠ "" then { a with llmSummary := some s } else a
  | .error _ => a

/-- Forgetful map clearing the summary field, used to state that
enrichment changes nothing else. -/
def stripSummary (a : ArticleDTO) : ArticleDTO :=
  { a with llmSummary := none }

/-- Coordinate resolution of NewsService.getNearbyArticles (client.go
lines 385-399): request coordinates when both are present; otherwise the
hard-coded San Francisco default when the extraction resolved at least
one location name; otherwise the descriptive error.  The radius defaults
to 10 when absent.  The result is the exact parameter tuple passed to
the repository call, or the error returned before any repository
call. -/
def getNearbyArticlesPlan (e : Extraction) (req : QueryRequest) :
    Except String (ℝ × ℝ × ℝ × Nat) :=
  match req.lat, req.lon with
  | some la, some lo => .ok (la, lo, req.radius.getD 10, req.limit)
  | _, _ =>
    match e.locations with
    | [] => .error "latitude and longitude are required for nearby search"
    | _ :: _ => .ok (37.7749, -122.4194, req.radius.getD 10, req.limit)

/-- DTO conversion for a nearby row (client.go lines 417-423): the
distance in meters is attached to the converted article. -/
def rowToNearbyDTO (r : GetNearbyArticlesRow) : ArticleDTO :=
  { convertToDTO r.article with distanceMeters := some r.distanceMeters }

/-- getNearbyArticles at the service layer (client.go lines 385-426),
parameterized by the repository operation it dispatches to. -/
def getNearbyArticlesClient
    (repoFn : ℝ → ℝ → ℝ → Nat → List GetNearbyArticlesRow)
    (e : Extraction) (req : QueryRequest) : Except String (List ArticleDTO) :=
  match getNearbyArticlesPlan e req with
  | .error msg => .error msg
  | .ok (la, lo, radius, lim) => .ok ((repoFn la lo radius lim).map rowToNearbyDTO)

/-- EventRow mirrors repo.GetRecentEventsByGeohashRow: the embedded
UserEvent plus the article's coordinates.  Timestamps are measured in
hours so that Duration.Hours is subtraction. -/
structure EventRow where
  id : Int
  articleID : String
  event : String
  occurredAt : ℝ
  userLat : Option ℝ
  userLon : Option ℝ
  latitude : Option ℝ
  longitude : Option ℝ

/-- TrendingMeta mirrors trending.TrendingMeta (scorer.go lines
31-35). -/
structure TrendingMeta where
  lastComputedAt : ℝ
  eventCount : Nat
  tileCount : Nat

/-- calculateEventScore mirrors TrendingScorer.calculateEventScore
(scorer.go lines 198-225); the current wall-clock time is passed in so
that time.Since(event.OccurredAt).Hours() is now - occurredAt. -/
noncomputable def calculateEventScore (now : ℝ) (event : EventRow) : ℝ :=
  let eventWeight : ℝ :=
    if event.event = "click" then 2
    else if event.event = "view" then 1
    else 1
  let timeDecay := Real.exp (-(now - event.occurredAt) / 6)
  let geoDecay : ℝ :=
    match event.userLat, event.userLon, event.latitude, event.longitude with
    | some ula, some ulo, some la, some lo =>
      1 / (1 + haversineDistance ula ulo la lo / 10)
    | _, _, _, _ => 1
  eventWeight * timeDecay * geoDecay

/-- Event weight as the spec states it (section 4.7): click 2.0, view
1.0, unknown kinds 1.0 by default. -/
noncomputable def specEventWeight (kind : String) : ℝ :=
  if kind = "click" then 2 else 1

/-- Time decay as the spec states it (section 4.7). -/
noncomputable def specTimeDecay (now occurredAt : ℝ) : ℝ :=
  Real.exp (-(now - occurredAt) / 6)

/-- Geographic decay as the spec states it (section 4.7): the penalty
applies exactly when both the user and the article coordinates are
known. -/
noncomputable def specGeoDecay (event : EventRow) : ℝ :=
  match event.userLat, event.userLon, event.latitude, event.longitude with
  | some ula, some ulo, some la, some lo =>
    1 / (1 + haversineDistance ula ulo la lo / 10)
  | _, _, _, _ => 1

/-- State of the Redis cache as the trending engine sees it: plain
values written with Set (only the global metadata blob here) and sorted
sets written with ZAdd.  TTLs are not modelled: Expire leaves the state
unchanged. -/
structure TCache where
  vals : String → Option TrendingMeta
  zsets : String → List (String × ℝ)

/-- The cache with no keys. -/
def emptyTCache : TCache :=
  { vals := fun _ => none, zsets := fun _ => [] }

/-- Redis SET on a metadata value. -/
def tset (c : TCache) (key : String) (m : TrendingMeta) : TCache :=
  { c with vals := Function.update c.vals key (some m) }

/-- Redis DEL: the key disappears from both kinds. -/
def tdel (c : TCache) (key : String) : TCache :=
  { vals := Function.update c.vals key none,
    zsets := Function.update c.zsets key [] }

/-- ZADD member update: replace the member's score in place or append
the member. -/
def zupsert (member : String) (score : ℝ) : List (String × ℝ) → List (String × ℝ)
  | [] => [(member, score)]
  | p :: rest =>
    if p.1 = member then (member, score) :: rest else p :: zupsert member score rest

/-- Redis ZADD on one member. -/
def tzadd (c : TCache) (key member : String) (score : ℝ) : TCache :=
  { c with zsets := Function.update c.zsets key (zupsert member score (c.zsets key)) }

/-- Redis EXPIRE: a no-op in this timeless model. -/
def texpire (c : TCache) (_key : String) : TCache := c

/-- Redis ZREVRANGEBYSCORE WITHSCORES over the inclusive index range
start..stop of the set ordered by descending score. -/
noncomputable def tzrevrangeWithScores (c : TCache) (key : String)
    (start stop : Nat) : List (String × ℝ) :=
  (((sortSlice (fun a b => decide (b.2 < a.2)) (c.zsets key)).drop start).take
    (stop + 1 - start))

/-- TrendingKey mirrors cache.TrendingKey (keys.go):
trending:geohash:GEOHASH:limit:N. -/
def TrendingKey (geohash : String) (limit : Nat) : String :=
  "trending:geohash:" ++ geohash ++ ":limit:" ++ toString limit

/-- Per-article accumulation of event scores, mirroring the Go map
articleScores with += updates; the list order is the first-occurrence
order of the article identifiers. -/
def addScore (aid : String) (s : ℝ) : List (String × ℝ) → List (String × ℝ)
  | [] => [(aid, s)]
  | p :: rest =>
    if p.1 = aid then (p.1, p.2 + s) :: rest else p :: addScore aid s rest

/-- computeTileScore mirrors TrendingScorer.computeTileScore (scorer.go
lines 144-195): accumulate per-article scores, sort descending, then
delete and repopulate the tile's sorted set under the key
TrendingKey(geohash, 50) - the constant 50 is the source's
"default limit". -/
noncomputable def computeTileScore (now : ℝ) (c : TCache) (geohash : String)
    (events : List EventRow) : TCache :=
  match events with
  | [] => c
  | _ :: _ =>
    let articleScores := events.foldl
      (fun acc ev => addScore ev.articleID (calculateEventScore now ev) acc) []
    let trendingScores := sortSlice (fun a b => decide (b.2 < a.2)) articleScores
    let trendingKey := TrendingKey geohash 50
    let c1 := tdel c trendingKey
    let c2 := trendingScores.foldl (fun cc t => tzadd cc trendingKey t.1 t.2) c1
    texpire c2 trendingKey

/-- GetTrendingScores mirrors TrendingScorer.GetTrendingScores
(scorer.go lines 308-330): read the sorted set under
TrendingKey(geohash, limit) descending, indices 0 through limit-1.
Members are already strings in this model, so the member type assertion
never filters anything. -/
noncomputable def GetTrendingScores (c : TCache) (geohash : String) (lim : Nat) :
    List (String × ℝ) :=
  tzrevrangeWithScores c (TrendingKey geohash lim) 0 (lim - 1)

/-- Truncation toward zero, the conversion Go's int(x) performs on a
float64. -/
noncomputable def goTrunc (x : ℝ) : ℤ :=
  if 0 ≤ x then ⌊x⌋ else -⌊-x⌋

/-- The base32 alphabet of cache.GenerateGeohash (keys.go). -/
def base32Chars : List Char :=
  "0123456789bcdefghjkmnpqrstuvwxyz".toList

/-- Character extraction loop of cache.GenerateGeohash: repeatedly index
the alphabet with combined mod 32 and divide; Go's % and / on int are
truncated, hence tmod and tdiv. -/
def geohashChars : ℤ → Nat → List Char
  | _, 0 => []
  | combined, precision + 1 =>
    base32Chars.getD (combined.tmod 32).toNat '0' ::
      geohashChars (combined.tdiv 32) precision

/-- GenerateGeohash mirrors cache.GenerateGeohash (keys.go): the
simplified hash-based tile identifier, not a real geohash. -/
noncomputable def GenerateGeohash (lat lon : ℝ) (precision : Nat) : String :=
  let latHash := (goTrunc ((lat + 90.0) * 1000000)).tmod 1000000
  let lonHash := (goTrunc ((lon + 180.0) * 1000000)).tmod 1000000
  let combined := latHash * 1000000 + lonHash
  String.mk (geohashChars combined precision)

/-- Append an event to its tile's group, mirroring the Go map append
with first-occurrence key order. -/
def addToGroup (key : String) (ev : EventRow) :
    List (String × List EventRow) → List (String × List EventRow)
  | [] => [(key, [ev])]
  | g :: rest =>
    if g.1 = key then (g.1, g.2 ++ [ev]) :: rest else g :: addToGroup key ev rest

/-- groupEventsByTile mirrors TrendingScorer.groupEventsByTile
(scorer.go lines 127-141): events without user coordinates are dropped,
the rest are grouped by their precision-5 tile. -/
noncomputable def groupEventsByTile (events : List EventRow) :
    List (String × List EventRow) :=
  events.foldl (fun groups ev =>
    match ev.userLat, ev.userLon with
    | some ula, some ulo => addToGroup (GenerateGeohash ula ulo 5) ev groups
    | _, _ => groups) []

/-- GetRecentEventsByGeohash mirrors repository.GetRecentEventsByGeohash
(part_004 lines 508-511): the empty slice and nil error for every since
timestamp. -/
def GetRecentEventsByGeohash (_since : ℝ) : Except String (List EventRow) :=
  .ok []

/-- computeAllTiles mirrors TrendingScorer.computeAllTiles (scorer.go
lines 77-124), parameterized by the repository event fetch: fetch the
last 24 hours of events, stop on the empty window, otherwise compute
every tile (computeTileScore never fails in the source, so every tile
counts) and overwrite the global metadata blob. -/
noncomputable def computeAllTiles
    (repoEvents : ℝ → Except String (List EventRow)) (now : ℝ) (c : TCache) :
    TCache × Except String Unit :=
  match repoEvents (now - 24) with
  | .error e => (c, .error ("failed to get recent events: " ++ e))
  | .ok events =>
    if events.length = 0 then (c, .ok ())
    else
      let tileEvents := groupEventsByTile events
      let c' := tileEvents.foldl (fun cc g => computeTileScore now cc g.1 g.2) c
      let meta : TrendingMeta :=
        { lastComputedAt := now, eventCount := events.length,
          tileCount := tileEvents.length }
      (tset c' "news:trending:global:meta" meta, .ok ())

/-- Terminal outcome of one GetOrSet caller. -/
inductive CallerResult where
  | value (v : String)
  | timeoutErr
  | producerErr
deriving DecidableEq, Repr

/-- Program counter of one GetOrSet caller, following
RedisCache.GetOrSet (redis.go lines 151-199) line by line: initial Get;
SetNX on the lock key; the 50-round poll loop; the producer call; the
value Set; the deferred lock Del on either outcome. -/
inductive CallerPC where
  | start
  | acquire
  | poll (remaining : Nat)
  | runProducer
  | store (v : String)
  | releaseOk (v : String)
  | releaseErr
  | done (r : CallerResult)
deriving DecidableEq, Repr

/-- Shared state for concurrent GetOrSet calls on one key: the cached
value, the lock key's presence, and every caller's program counter.
Lock and value TTL expiry is not modelled: the interleaving semantics
lives inside the lock's validity window. -/
structure LockWorld where
  cacheVal : Option String
  lockHeld : Bool
  callers : Nat → CallerPC

/-- Replace one caller's program counter. -/
def setPC (st : LockWorld) (i : Nat) (pc : CallerPC) : LockWorld :=
  { st with callers := Function.update st.callers i pc }

/-- One atomic step of caller i, following the control flow of
RedisCache.GetOrSet.  Each Redis command is one atomic action; sleeps
take no model time; Redis transport errors are not modelled. -/
def stepCaller (produce : Except String String) (st : LockWorld) (i : Nat) :
    LockWorld :=
  match st.callers i with
  | .start =>
    match st.cacheVal with
    | some v => setPC st i (.done (.value v))
    | none => setPC st i .acquire
  | .acquire =>
    if st.lockHeld then setPC st i (.poll 50)
    else { setPC st i .runProducer with lockHeld := true }
  | .poll k =>
    match k with
    | 0 => setPC st i (.done .timeoutErr)
    | Nat.succ k' =>
      match st.cacheVal with
      | some v => setPC st i (.done (.value v))
      | none => setPC st i (.poll k')
  | .runProducer =>
    match produce with
    | .ok v => setPC st i (.store v)
    | .error _ => setPC st i .releaseErr
  | .store v => { setPC st i (.releaseOk v) with cacheVal := some v }
  | .releaseOk v => { setPC st i (.done (.value v)) with lockHeld := false }
  | .releaseErr => { setPC st i (.done .producerErr) with lockHeld := false }
  | .done _ => st

/-- Initial state: empty cache, free lock, every caller at its initial
Get. -/
def initLockWorld : LockWorld :=
  { cacheVal := none, lockHeld := false, callers := fun _ => .start }

/-- Run an interleaving: the schedule lists which caller takes each
atomic step. -/
def runLockWorld (produce : Except String String) (sched : List Nat) : LockWorld :=
  sched.foldl (stepCaller produce) initLockWorld

/-- The caller is between a successful lock acquisition and the matching
release, the region in which the producer runs. -/
def inCritical : CallerPC → Bool
  | .runProducer => true
  | .store _ => true
  | .releaseOk _ => true
  | .releaseErr => true
  | _ => false

/-- Per-caller payload consistency when the producer yields v: stored
and released values are v, and a finished caller holds either the value
v or a timeout. -/
def pcConsistent (v : String) : CallerPC → Prop
  | .store w => w = v
  | .releaseOk w => w = v
  | .releaseErr => False
  | .done r => r = .value v ∨ r = .timeoutErr
  | _ => True

/-- Invariant of the stampede guard when the producer yields v: the
critical region is empty while the lock is free, at most one caller
occupies it, the cache only ever holds the produced value, and every
caller's payload is consistent. -/
def LockInv (v : String) (st : LockWorld) : Prop :=
  (st.lockHeld = false → ∀ i, inCritical (st.callers i) = false)
  ∧ (∀ i j, inCritical (st.callers i) = true → inCritical (st.callers j) = true → i = j)
  ∧ (st.cacheVal = none ∨ st.cacheVal = some v)
  ∧ (∀ i, pcConsistent v (st.callers i))

/-- Cache state after one tile computation over a single click event,
used to exhibit the trending key mismatch. -/
noncomputable def tileCacheAfterOneEvent : TCache :=
  computeTileScore 0 emptyTCache "t"
    [{ id := 1, articleID := "a1", event := "click", occurredAt := 0,
       userLat := none, userLon := none, latitude := none, longitude := none }]

/-- Article whose title matches the query "x" but whose description is
absent: search score 0.7. -/
def searchArticleTitleOnly : Article :=
  { id := "a1", title := "x", description := none, url := "u",
    publicationDate := 0, sourceName := "s", category := [],
    relevanceScore := 0, latitude := none, longitude := none }

/-- Article whose title and description both match the query "x":
search score 1.0. -/
def searchArticleTitleAndDesc : Article :=
  { id := "a2", title := "x", description := some "x", url := "u",
    publicationDate := 0, sourceName := "s", category := [],
    relevanceScore := 0, latitude := none, longitude := none }

/-- Ranked entry carrying no distance. -/
def dtoMissingDistance : ArticleDTO :=
  { id := "m", title := "t", description := none, url := "u", publicationDate := 0,
    sourceName := "s", category := [], relevanceScore := 0, llmSummary := none,
    latitude := none, longitude := none, distanceMeters := none, searchScore := none }

/-- Ranked entry carrying a distance of 5000 meters. -/
def dtoWithDistance : ArticleDTO :=
  { id := "w", title := "t", description := none, url := "u", publicationDate := 0,
    sourceName := "s", category := [], relevanceScore := 0, llmSummary := none,
    latitude := none, longitude := none, distanceMeters := some 5000, searchScore := none }

/-- Request value for ranking demonstrations; rankArticles ignores it. -/
def plainRequest : QueryRequest :=
  { query := "q", lat := none, lon := none, radius := none, limit := 5 }

/-- Extraction that resolves a location name but nothing else. -/
def locationOnlyExtraction : Extraction :=
  { people := [], orgs := [], locations := ["paris"], concepts := [], intent := [],
    radiusKm := none, sourceNames := [], categories := [] }

/-- Extraction that resolves nothing at all. -/
def emptyExtraction : Extraction :=
  { people := [], orgs := [], locations := [], concepts := [], intent := [],
    radiusKm := none, sourceNames := [], categories := [] }

/-- Request carrying no coordinates. -/
def coordlessRequest : QueryRequest :=
  { query := "news near paris", lat := none, lon := none, radius := none, limit := 5 }

/-- Shape of a token the number regular expression can match: a nonempty
digit run, optionally followed by a dot and a digit run. -/
def numToken (tok : List Char) : Prop :=
  ∃ ds fs : List Char,
    ds ≠ [] ∧ (∀ c ∈ ds, c.isDigit = true) ∧ (∀ c ∈ fs, c.isDigit = true) ∧
    (tok = ds ∨ tok = ds ++ '.' :: fs)

theorem foldl_argAux_some (r : Intent → Intent → Prop) [DecidableRel r]
    (l : List Intent) : ∀ a : Intent,
    l.foldl (List.argAux r) (some a) =
      some (l.foldl (fun best cur => if r cur best then cur else best) a) := by
  induction l with
  | nil => intro a; rfl
  | cons x xs ih =>
    intro a
    simp only [List.foldl_cons, List.argAux]
    by_cases h : r x a
    · simp only [if_pos h, ih]
    · simp only [if_neg h, ih]

theorem getBestIntent_eq_argmax (e : Extraction) :
    getBestIntent e =
      match e.intent.argmax Intent.confidence with
      | none => "search"
      | some best => best.type := by
  cases hi : e.intent with
  | nil => simp [getBestIntent, hi, List.argmax]
  | cons first rest =>
    simp only [getBestIntent, hi, List.argmax, List.foldl_cons, List.argAux]
    rw [foldl_argAux_some]

/-- C1: the strategy selector is a pure function of (Extraction,
QueryRequest) following the claimed first-match decision order, amended
at one point: when the extraction lists no intents at all, getBestIntent
substitutes the label "search", which the synonym map sends to the
search strategy directly, so the entity scan of step 3 is reached only
when a best intent label exists but matches no synonym.  specSelector
spells out that amended decision order, with the best label given by
List.argmax on confidence (highest confidence, earliest occurrence wins
ties). -/
theorem determineStrategy_follows_decision_order
    (e : Extraction) (req : QueryRequest) :
    determineStrategy e req = specSelector e req := by
  obtain ⟨q, lat, lon, rad, lim⟩ := req
  unfold determineStrategy specSelector
  cases lat <;> cases lon <;> try rfl
  all_goals rw [getBestIntent_eq_argmax]
  all_goals cases harg : e.intent.argmax Intent.confidence
  all_goals simp only [harg]
  all_goals try rfl
  all_goals simp only [intentSynonym]
  all_goals split_ifs <;> rfl

/-- C1 counterexample: an extraction with an empty intent list and a
recognized source name among its entities.  The claim's step 3 requires
the strategy "source" here (no request coordinates, no intent label to
map, a recognized source in the combined entity list), but the selector
returns "search" because the empty intent list is turned into the label
"search" before the entity scan is consulted. -/
theorem determineStrategy_empty_intent_counterexample :
    determineStrategy
      { people := [], orgs := [], locations := [], concepts := [], intent := [],
        radiusKm := none, sourceNames := ["bbc"], categories := [] }
      { query := "latest from bbc", lat := none, lon := none, radius := none,
        limit := 5 } = "search"
    ∧ hasSourceEntities (getAllEntities
      { people := [], orgs := [], locations := [], concepts := [], intent := [],
        radiusKm := none, sourceNames := ["bbc"], categories := [] }) = true := by
  exact ⟨rfl, by decide⟩

/-- C10: the repository's GetRecentEventsByGeohash returns the empty
slice and nil error for every since timestamp, so every background
cycle computeAllTiles is a no-op: the cache state is returned unchanged
(no tile score set is written and the global trending metadata is not
touched) and the cycle reports success. -/
theorem computeAllTiles_noop_on_stub_repository (now : ℝ) (c : TCache) :
    computeAllTiles GetRecentEventsByGeohash now c = (c, Except.ok ())
    ∧ GetRecentEventsByGeohash (now - 24) = Except.ok [] :=
  ⟨rfl, rfl⟩

/-- C2: the per-tile computation writes the tile's score set under
TrendingKey(tile, 50) - the constant "default limit" of scorer.go line
172 - while the read path GetTrendingScores(tile, n) reads
TrendingKey(tile, n).  For any requested limit other than 50 the reader
therefore consults a key the background cycle never wrote: after a cycle
that scored article a1 in tile t, the score set sits under
trending:geohash:t:limit:50 and a top-1 read returns nothing instead of
the top-1 entry of the computed score set. -/
theorem trendingKey_write_read_mismatch :
    GetTrendingScores tileCacheAfterOneEvent "t" 1 = []
    ∧ tileCacheAfterOneEvent.zsets (TrendingKey "t" 50) =
      [("a1", calculateEventScore 0
        { id := 1, articleID := "a1", event := "click", occurredAt := 0,
          userLat := none, userLon := none, latitude := none, longitude := none })]
    ∧ GetTrendingScores tileCacheAfterOneEvent "t" 50 =
      [("a1", calculateEventScore 0
        { id := 1, articleID := "a1", event := "click", occurredAt := 0,
          userLat := none, userLon := none, latitude := none, longitude := none })]
    ∧ TrendingKey "t" 1 ≠ TrendingKey "t" 50 := by
  refine ⟨rfl, rfl, rfl, ?_⟩
  decide

theorem calculateEventScore_decomposition (now : ℝ) (event : EventRow) :
    calculateEventScore now event =
      specEventWeight event.event * specTimeDecay now event.occurredAt *
        specGeoDecay event := by
  unfold calculateEventScore specEventWeight specTimeDecay specGeoDecay
  by_cases hclick : event.event = "click"
  · simp [hclick]
  · by_cases hview : event.event = "view" <;> simp [hclick, hview]

/-- C6: each event's score is eventWeight x timeDecay x geoDecay with
weight 2 for clicks and 1 for views and unknown kinds, timeDecay
exp(-hoursSinceEvent/6), and geoDecay 1/(1 + distance/10) exactly when
both user and article coordinates are present (1 otherwise); an event 0
hours old scores its full weight times the geo factor, and an event 6
hours old scores exp(-1) of that. -/
theorem calculateEventScore_formula (now : ℝ) (event : EventRow) :
    calculateEventScore now event =
      specEventWeight event.event * specTimeDecay now event.occurredAt *
        specGeoDecay event
    ∧ calculateEventScore event.occurredAt event =
      specEventWeight event.event * specGeoDecay event
    ∧ calculateEventScore (event.occurredAt + 6) event =
      Real.exp (-1) * (specEventWeight event.event * specGeoDecay event) := by
  refine ⟨calculateEventScore_decomposition now event, ?_, ?_⟩
  · rw [calculateEventScore_decomposition]
    unfold specTimeDecay
    simp [Real.exp_zero]
  · rw [calculateEventScore_decomposition]
    unfold specTimeDecay
    have h6 : -(event.occurredAt + 6 - event.occurredAt) / 6 = (-1 : ℝ) := by
      ring_nf
    rw [h6]
    ring

theorem collectLimit_eq_take (f : α → Option β) :
    ∀ (l : List α) (acc : List β) (lim : Nat), acc.length < lim →
    collectLimit f lim acc l = acc ++ (l.filterMap f).take (lim - acc.length) := by
  intro l
  induction l with
  | nil => intro acc lim _h; simp [collectLimit]
  | cons a rest ih =>
    intro acc lim h
    simp only [collectLimit, List.filterMap_cons]
    cases hf : f a with
    | none => simpa [hf] using ih acc lim h
    | some b =>
      simp only [hf]
      by_cases hle : lim ≤ (acc ++ [b]).length
      · rw [if_pos hle]
        have hlim : lim - acc.length = 1 := by
          simp only [List.length_append, List.length_cons, List.length_nil] at hle
          omega
        rw [hlim]
        simp
      · rw [if_neg hle]
        have hlt : (acc ++ [b]).length < lim := by
          simp only [List.length_append, List.length_cons, List.length_nil] at hle ⊢
          omega
        rw [ih _ _ hlt]
        have hstep : lim - acc.length = (lim - (acc ++ [b]).length) + 1 := by
          simp only [List.length_append, List.length_cons, List.length_nil] at *
          omega
        rw [hstep]
        simp [List.take_succ_cons]

theorem filterMap_ite_some (p : α → Prop) [DecidablePred p] (l : List α) :
    l.filterMap (fun a => if p a then some a else none) =
      l.filter (fun a => decide (p a)) := by
  induction l with
  | nil => rfl
  | cons a rest ih => by_cases h : p a <;> simp [h, ih]

/-- C3 (amended): each repository operation stops collecting matches as
soon as the accumulator reaches the limit, walking the candidates in the
store's iteration order, so the result is the first limit matches in
iteration order rather than the best limit matches under the strategy's
comparator.  Search and score return exactly the limit-prefix of the
filtered candidates; nearby sorts by ascending distance only the
limit-prefix it collected. -/
theorem repository_truncates_before_ranking
    (articles : List Article) (query : String) (minScore : ℚ)
    (lat lon radius : ℝ) (lim : Nat) (hlim : 1 ≤ lim) :
    SearchArticles articles query lim =
      (articles.filterMap (searchRow (goToLower query))).take lim
    ∧ GetArticlesByScore articles minScore lim =
      (articles.filter (fun a => decide (minScore ≤ a.relevanceScore))).take lim
    ∧ GetNearbyArticles articles lat lon radius lim =
      sortSlice (fun r1 r2 => decide (r1.distanceMeters < r2.distanceMeters))
        ((articles.filterMap (nearbyRow lat lon radius)).take lim) := by
  have h0 : ([] : List SearchArticlesRow).length < lim := hlim
  have h1 : ([] : List Article).length < lim := hlim
  have h2 : ([] : List GetNearbyArticlesRow).length < lim := hlim
  refine ⟨?_, ?_, ?_⟩
  · simpa using collectLimit_eq_take (searchRow (goToLower query)) articles [] lim h0
  · have := collectLimit_eq_take
      (fun a => if minScore ≤ a.relevanceScore then some a else none) articles [] lim h1
    rw [GetArticlesByScore, this]
    simp [filterMap_ite_some]
  · rw [GetNearbyArticles, collectLimit_eq_take _ articles [] lim h2]
    simp

/-- C3 counterexample: with limit 1 the search operation keeps only the
first matching candidate in iteration order (score 0.7) and never
reaches the strictly better second match (score 1.0), so the returned
result is not the best single item under the search comparator among all
matching articles. -/
theorem searchArticles_break_counterexample :
    (SearchArticles [searchArticleTitleOnly, searchArticleTitleAndDesc] "x" 1).map
      (fun r => (r.article.id, r.searchScore)) = [("a1", 7/10)]
    ∧ (SearchArticles [searchArticleTitleOnly, searchArticleTitleAndDesc] "x" 2).map
      (fun r => (r.article.id, r.searchScore)) = [("a1", 7/10), ("a2", 1)]
    ∧ ((7 : ℚ)/10 < 1) := by
  have hx : goContains (goToLower "x") (goToLower "x") = true := by decide
  refine ⟨?_, ?_, by norm_num⟩ <;>
  norm_num [SearchArticles, collectLimit, searchRow, searchArticleTitleOnly,
    searchArticleTitleAndDesc, hx]

/-- C3 witness: the amended truncation theorem applied at limit 1 over
the empty candidate list. -/
theorem repository_truncates_witness :
    (1 : Nat) ≤ 1 ∧
    (SearchArticles [] "q" 1 =
      (List.filterMap (searchRow (goToLower "q")) []).take 1
    ∧ GetArticlesByScore [] 0 1 =
      (List.filter (fun a => decide ((0 : ℚ) ≤ a.relevanceScore)) []).take 1
    ∧ GetNearbyArticles [] 0 0 0 1 =
      sortSlice (fun r1 r2 => decide (r1.distanceMeters < r2.distanceMeters))
        ((List.filterMap (nearbyRow 0 0 0) []).take 1)) :=
  ⟨le_refl 1, repository_truncates_before_ranking [] "q" 0 0 0 0 1 (le_refl 1)⟩

theorem insertSorted_perm (less : α → α → Bool) (x : α) (l : List α) :
    (insertSorted less x l).Perm (x :: l) := by
  induction l with
  | nil => exact List.Perm.refl _
  | cons y ys ih =>
    simp only [insertSorted]
    by_cases h : less y x = true
    · rw [if_pos h]
      exact (ih.cons y).trans (List.Perm.swap x y ys)
    · rw [if_neg h]

theorem sortSlice_perm (less : α → α → Bool) (l : List α) :
    (sortSlice less l).Perm l := by
  induction l with
  | nil => exact List.Perm.refl _
  | cons x xs ih =>
    simp only [sortSlice, List.foldr_cons]
    exact (insertSorted_perm less x _).trans (ih.cons x)

theorem insertSorted_pairwise (less : α → α → Bool) (x : α) (l : List α)
    (hs : l.Pairwise (fun a b => less b a = false))
    (hasym : ∀ y ∈ l, less y x = true → less x y = false)
    (hneg : ∀ y ∈ l, ∀ z ∈ l, less y x = false → less z y = false → less z x = false) :
    (insertSorted less x l).Pairwise (fun a b => less b a = false) := by
  induction l with
  | nil => simp [insertSorted]
  | cons y ys ih =>
    obtain ⟨hy, hys⟩ := List.pairwise_cons.mp hs
    simp only [insertSorted]
    by_cases h : less y x = true
    · rw [if_pos h]
      refine List.pairwise_cons.mpr ⟨?_, ?_⟩
      · intro z hz
        have hz' : z ∈ x :: ys := (insertSorted_perm less x ys).mem_iff.mp hz
        rcases List.mem_cons.mp hz' with rfl | hzys
        · exact hasym y (List.mem_cons_self y ys) h
        · exact hy z hzys
      · exact ih hys
          (fun a ha => hasym a (List.mem_cons_of_mem y ha))
          (fun a ha b hb => hneg a (List.mem_cons_of_mem y ha) b (List.mem_cons_of_mem y hb))
    · have hyx : less y x = false := by
        cases hv : less y x with
        | false => rfl
        | true => exact absurd hv h
      rw [if_neg h]
      refine List.pairwise_cons.mpr ⟨?_, hs⟩
      intro z hz
      rcases List.mem_cons.mp hz with rfl | hzys
      · exact hyx
      · exact hneg y (List.mem_cons_self y ys) z (List.mem_cons_of_mem y hzys) hyx
          (hy z hzys)

theorem sortSlice_pairwise (less : α → α → Bool) (l : List α)
    (hasym : ∀ a ∈ l, ∀ b ∈ l, less a b = true → less b a = false)
    (hneg : ∀ a ∈ l, ∀ b ∈ l, ∀ c ∈ l,
      less a b = false → less c a = false → less c b = false) :
    (sortSlice less l).Pairwise (fun a b => less b a = false) := by
  induction l with
  | nil => simp [sortSlice]
  | cons x xs ih =>
    have hsub : ∀ a, a ∈ sortSlice less xs → a ∈ x :: xs := fun a ha =>
      List.mem_cons_of_mem x ((sortSlice_perm less xs).mem_iff.mp ha)
    simp only [sortSlice, List.foldr_cons]
    refine insertSorted_pairwise less x _ ?_ ?_ ?_
    · exact ih
        (fun a ha b hb => hasym a (List.mem_cons_of_mem x ha) b (List.mem_cons_of_mem x hb))
        (fun a ha b hb c hc => hneg a (List.mem_cons_of_mem x ha) b
          (List.mem_cons_of_mem x hb) c (List.mem_cons_of_mem x hc))
    · intro y hy hxy
      exact hasym y (hsub y hy) x (List.mem_cons_self x xs) hxy
    · intro y hy z hz h1 h2
      exact hneg y (hsub y hy) x (List.mem_cons_self x xs) z (hsub z hz) h1 h2

theorem insertSorted_ties (less : α → α → Bool) (x : α) (l : List α)
    (h : ∀ y ∈ l, less y x = false) : insertSorted less x l = x :: l := by
  cases l with
  | nil => rfl
  | cons y ys => simp [insertSorted, h y (List.mem_cons_self y ys)]

theorem sortSlice_ties (less : α → α → Bool) (l : List α)
    (h : ∀ a ∈ l, ∀ b ∈ l, less a b = false) : sortSlice less l = l := by
  induction l with
  | nil => rfl
  | cons x xs ih =>
    simp only [sortSlice, List.foldr_cons]
    have hxs : List.foldr (insertSorted less) [] xs = xs :=
      ih (fun a ha b hb => h a (List.mem_cons_of_mem x ha) b (List.mem_cons_of_mem x hb))
    rw [hxs]
    exact insertSorted_ties less x xs
      (fun y hy => h y (List.mem_cons_of_mem x hy) x (List.mem_cons_self x xs))

theorem lessByDate_asym (a b : ArticleDTO) :
    lessByDate a b = true → lessByDate b a = false := by
  simp only [lessByDate, decide_eq_true_eq, decide_eq_false_iff_not]
  exact lt_asymm

theorem lessByDate_negtrans (a b c : ArticleDTO) :
    lessByDate a b = false → lessByDate c a = false → lessByDate c b = false := by
  simp only [lessByDate, decide_eq_false_iff_not, not_lt]
  exact fun h1 h2 => h2.trans h1

theorem lessByRel_asym (a b : ArticleDTO) :
    lessByRel a b = true → lessByRel b a = false := by
  simp only [lessByRel, decide_eq_true_eq, decide_eq_false_iff_not]
  exact lt_asymm

theorem lessByRel_negtrans (a b c : ArticleDTO) :
    lessByRel a b = false → lessByRel c a = false → lessByRel c b = false := by
  simp only [lessByRel, decide_eq_false_iff_not, not_lt]
  exact fun h1 h2 => h2.trans h1

/-- C4 (amended): under the stable-sort model of sort.Slice, rankArticles
permutes its input and orders it by the strategy's comparator: category
and source by descending publication date, score by descending relevance,
search by descending search score whenever every entry carries one, and
nearby by ascending distance whenever every entry carries one.  An entry
missing a distance compares as a tie with every entry, so such entries
keep their retrieval position instead of sorting last; in particular a
list in which no entry has a distance is returned unchanged. -/
theorem rankArticles_ordering (req : QueryRequest) (l : List ArticleDTO) :
    (∀ s, (rankArticles l s req).Perm l)
    ∧ (rankArticles l "category" req).Pairwise (fun a b => lessByDate b a = false)
    ∧ (rankArticles l "source" req).Pairwise (fun a b => lessByDate b a = false)
    ∧ (rankArticles l "score" req).Pairwise (fun a b => lessByRel b a = false)
    ∧ (l.all (fun a => a.searchScore.isSome) = true →
        (rankArticles l "search" req).Pairwise (fun a b => lessBySearch b a = false))
    ∧ (l.all (fun a => a.distanceMeters.isSome) = true →
        (rankArticles l "nearby" req).Pairwise (fun a b => lessByDist b a = false))
    ∧ (∀ a b : ArticleDTO, a.distanceMeters = none ∨ b.distanceMeters = none →
        lessByDist a b = false)
    ∧ (l.all (fun a => a.distanceMeters.isNone) = true →
        rankArticles l "nearby" req = l) := by
  have hdistnone : ∀ a b : ArticleDTO,
      a.distanceMeters = none ∨ b.distanceMeters = none → lessByDist a b = false := by
    intro a b h
    rcases h with h | h <;>
      cases ha : a.distanceMeters <;> cases hb : b.distanceMeters <;>
        simp_all [lessByDist]
  refine ⟨?_, ?_, ?_, ?_, ?_, ?_, hdistnone, ?_⟩
  · intro s
    unfold rankArticles
    split_ifs <;> first | exact sortSlice_perm _ _ | exact List.Perm.refl _
  · rw [show rankArticles l "category" req = sortSlice lessByDate l from rfl]
    exact sortSlice_pairwise _ _ (fun a _ b _ => lessByDate_asym a b)
      (fun a _ b _ c _ => lessByDate_negtrans a b c)
  · rw [show rankArticles l "source" req = sortSlice lessByDate l from rfl]
    exact sortSlice_pairwise _ _ (fun a _ b _ => lessByDate_asym a b)
      (fun a _ b _ c _ => lessByDate_negtrans a b c)
  · rw [show rankArticles l "score" req = sortSlice lessByRel l from rfl]
    exact sortSlice_pairwise _ _ (fun a _ b _ => lessByRel_asym a b)
      (fun a _ b _ c _ => lessByRel_negtrans a b c)
  · intro hall
    rw [show rankArticles l "search" req = sortSlice lessBySearch l from rfl]
    have hsome : ∀ a ∈ l, ∃ s, a.searchScore = some s := by
      intro a ha
      have := List.all_eq_true.mp hall a ha
      exact Option.isSome_iff_exists.mp this
    refine sortSlice_pairwise _ _ ?_ ?_
    · intro a ha b hb
      obtain ⟨sa, hsa⟩ := hsome a ha
      obtain ⟨sb, hsb⟩ := hsome b hb
      simp only [lessBySearch, hsa, hsb, decide_eq_true_eq, decide_eq_false_iff_not]
      exact lt_asymm
    · intro a ha b hb c hc
      obtain ⟨sa, hsa⟩ := hsome a ha
      obtain ⟨sb, hsb⟩ := hsome b hb
      obtain ⟨sc, hsc⟩ := hsome c hc
      simp only [lessBySearch, hsa, hsb, hsc, decide_eq_false_iff_not, not_lt]
      exact fun h1 h2 => h2.trans h1
  · intro hall
    rw [show rankArticles l "nearby" req = sortSlice lessByDist l from rfl]
    have hsome : ∀ a ∈ l, ∃ d, a.distanceMeters = some d := by
      intro a ha
      have := List.all_eq_true.mp hall a ha
      exact Option.isSome_iff_exists.mp this
    refine sortSlice_pairwise _ _ ?_ ?_
    · intro a ha b hb
      obtain ⟨da, hda⟩ := hsome a ha
      obtain ⟨db, hdb⟩ := hsome b hb
      simp only [lessByDist, hda, hdb, decide_eq_true_eq, decide_eq_false_iff_not]
      exact lt_asymm
    · intro a ha b hb c hc
      obtain ⟨da, hda⟩ := hsome a ha
      obtain ⟨db, hdb⟩ := hsome b hb
      obtain ⟨dc, hdc⟩ := hsome c hc
      simp only [lessByDist, hda, hdb, hdc, decide_eq_false_iff_not, not_lt]
      exact fun h1 h2 => h1.trans h2
  · intro hall
    rw [show rankArticles l "nearby" req = sortSlice lessByDist l from rfl]
    refine sortSlice_ties _ _ ?_
    intro a ha b _hb
    have := List.all_eq_true.mp hall a ha
    exact hdistnone a b (Or.inl (Option.isNone_iff_eq_none.mp this))

/-- C4 counterexample: ranking the two-entry list whose first entry has
no distance under the nearby strategy leaves the missing-distance entry
in first position, ahead of an entry with a distance, because the
comparator treats a missing distance as a tie with everything - the
claim's "entries missing a distance always placed last" fails even under
a stable sort. -/
theorem rankArticles_missing_distance_counterexample :
    rankArticles [dtoMissingDistance, dtoWithDistance] "nearby" plainRequest =
      [dtoMissingDistance, dtoWithDistance]
    ∧ dtoMissingDistance.distanceMeters = none
    ∧ dtoWithDistance.distanceMeters = some 5000 :=
  ⟨rfl, rfl, rfl⟩

/-- C4 witness: the ordering theorem applied to concrete one-entry
lists, with the all-carry-a-distance and no-entry-carries-a-distance
side conditions discharged by evaluation. -/
theorem rankArticles_ordering_witness :
    rankArticles [dtoMissingDistance] "nearby" plainRequest = [dtoMissingDistance]
    ∧ (rankArticles [dtoWithDistance] "nearby" plainRequest).Pairwise
        (fun a b => lessByDist b a = false) :=
  ⟨(rankArticles_ordering plainRequest [dtoMissingDistance]).2.2.2.2.2.2.2 (by decide),
   (rankArticles_ordering plainRequest [dtoWithDistance]).2.2.2.2.2.1 (by decide)⟩

theorem enrichArticles_eq_map (summarize : Summarizer) :
    ∀ l : List ArticleDTO,
    enrichArticles summarize l = l.map (applySummary summarize) := by
  intro l
  induction l with
  | nil => rfl
  | cons a rest ih =>
    simp only [enrichArticles, List.map_cons, List.zip_cons_cons] at ih ⊢
    refine congrArg₂ List.cons ?_ ih
    cases hr : summarize a.title (a.description.getD "") a.sourceName
        a.publicationDate with
    | ok s => simp only [applySummary, hr]
    | error e =>
      simp only [applySummary, hr]
      simp

theorem stripSummary_applySummary (summarize : Summarizer) (a : ArticleDTO) :
    stripSummary (applySummary summarize a) = stripSummary a := by
  unfold applySummary
  cases hr : summarize a.title (a.description.getD "") a.sourceName
    a.publicationDate with
  | ok s => by_cases hs : s = "" <;> simp [hs, stripSummary]
  | error e => rfl

/-- C8: enrichment is total (it returns a plain list, never an error),
keeps the articles in their original order with every non-summary field
unchanged, and equals the per-index description applySummary: each
result gains a summary exactly when its own summarization call succeeds
with nonempty text, so one failed call leaves only that result's summary
absent while results whose calls succeed keep theirs. -/
theorem enrichArticles_characterization (summarize : Summarizer)
    (articles : List ArticleDTO) :
    enrichArticles summarize articles = articles.map (applySummary summarize)
    ∧ (enrichArticles summarize articles).length = articles.length
    ∧ (enrichArticles summarize articles).map stripSummary =
        articles.map stripSummary := by
  have hmain := enrichArticles_eq_map summarize articles
  refine ⟨hmain, ?_, ?_⟩
  · rw [hmain, List.length_map]
  · rw [hmain, List.map_map]
    exact List.map_congr_left (fun a _ => stripSummary_applySummary summarize a)

/-- C9 (amended): when the request lacks a coordinate, getNearbyArticles
returns the descriptive error without consulting the repository exactly
when the extraction resolved no location names (the result is the same
for every repository function); when the extraction did resolve a
location name, the code does not error but substitutes the hard-coded
San Francisco coordinates (37.7749, -122.4194) as the repository call's
location. -/
theorem getNearbyArticles_missing_geo (e : Extraction) (req : QueryRequest)
    (repoFn : ℝ → ℝ → ℝ → Nat → List GetNearbyArticlesRow)
    (hmiss : req.lat = none ∨ req.lon = none) :
    (e.locations = [] →
      getNearbyArticlesClient repoFn e req =
        Except.error "latitude and longitude are required for nearby search"
      ∧ ∀ repoFn2, getNearbyArticlesClient repoFn e req =
          getNearbyArticlesClient repoFn2 e req)
    ∧ (e.locations ≠ [] →
      getNearbyArticlesPlan e req =
        Except.ok (37.7749, -122.4194, req.radius.getD 10, req.limit)) := by
  obtain ⟨ppl, orgs, locs, cpts, ints, rad2, srcs, cats⟩ := e
  obtain ⟨q, lat, lon, rad, lim⟩ := req
  simp only at hmiss ⊢
  cases lat <;> cases lon
  case some.some la lo => simp at hmiss
  all_goals cases locs with
    | nil => exact ⟨fun _ => ⟨rfl, fun repoFn2 => rfl⟩, fun hloc => absurd rfl hloc⟩
    | cons x xs =>
      exact ⟨fun hloc => absurd hloc (List.cons_ne_nil x xs), fun _ => rfl⟩

/-- C9 counterexample: for a nearby request lacking request coordinates
whose extraction resolves the location name "paris", the core does
substitute an invented fallback location: the repository call is planned
at the hard-coded San Francisco coordinates instead of an error. -/
theorem nearby_fallback_location_counterexample :
    getNearbyArticlesPlan locationOnlyExtraction coordlessRequest =
      Except.ok (37.7749, -122.4194, 10, 5)
    ∧ coordlessRequest.lat = none ∧ coordlessRequest.lon = none :=
  ⟨rfl, rfl, rfl⟩

/-- C9 witness: the missing-geo theorem applied to the coordinate-free
request and the empty extraction, with both hypotheses discharged. -/
theorem getNearbyArticles_missing_geo_witness :
    getNearbyArticlesClient (fun _ _ _ _ => []) emptyExtraction coordlessRequest =
      Except.error "latitude and longitude are required for nearby search" :=
  ((getNearbyArticles_missing_geo emptyExtraction coordlessRequest
    (fun _ _ _ _ => []) (Or.inl rfl)).1 rfl).1

theorem setPC_callers (st : LockWorld) (i : Nat) (pc : CallerPC) (j : Nat) :
    (setPC st i pc).callers j = if j = i then pc else st.callers j := by
  simp [setPC, Function.update_apply]

theorem lockInv_setPC_nc (v : String) (st : LockWorld) (i : Nat) (pc : CallerPC)
    (h : LockInv v st) (hnc : inCritical pc = false) (hok : pcConsistent v pc) :
    LockInv v (setPC st i pc) := by
  obtain ⟨h1, h2, h3, h4⟩ := h
  refine ⟨?_, ?_, h3, ?_⟩
  · intro hl j
    rw [setPC_callers]
    by_cases hj : j = i
    · rw [if_pos hj]; exact hnc
    · rw [if_neg hj]; exact h1 hl j
  · intro j k hj hk
    rw [setPC_callers] at hj hk
    by_cases hji : j = i
    · rw [if_pos hji, hnc] at hj; cases hj
    · rw [if_neg hji] at hj
      by_cases hki : k = i
      · rw [if_pos hki, hnc] at hk; cases hk
      · rw [if_neg hki] at hk; exact h2 j k hj hk
  · intro j
    rw [setPC_callers]
    by_cases hj : j = i
    · rw [if_pos hj]; exact hok
    · rw [if_neg hj]; exact h4 j

theorem stepCaller_preserves (v : String) (st : LockWorld) (i : Nat)
    (h : LockInv v st) : LockInv v (stepCaller (Except.ok v) st i) := by
  obtain ⟨h1, h2, h3, h4⟩ := h
  have hval : ∀ w, st.cacheVal = some w → w = v := by
    intro w hw
    rcases h3 with h | h
    · rw [hw] at h; cases h
    · rw [hw] at h; exact Option.some.inj h
  cases hpc : st.callers i with
  | start =>
    simp only [stepCaller, hpc]
    cases hc : st.cacheVal with
    | none => exact lockInv_setPC_nc v st i _ ⟨h1, h2, h3, h4⟩ rfl trivial
    | some w =>
      exact lockInv_setPC_nc v st i _ ⟨h1, h2, h3, h4⟩ rfl
        (Or.inl (by rw [hval w hc]))
  | acquire =>
    simp only [stepCaller, hpc]
    by_cases hl : st.lockHeld
    · rw [if_pos hl]
      exact lockInv_setPC_nc v st i _ ⟨h1, h2, h3, h4⟩ rfl trivial
    · rw [if_neg hl]
      have hlf : st.lockHeld = false := by
        cases hv : st.lockHeld
        · rfl
        · exact absurd hv hl
      refine ⟨?_, ?_, h3, ?_⟩
      · intro hcontra
        cases hcontra
      · intro j k hj hk
        simp only [setPC_callers] at hj hk
        by_cases hji : j = i
        · by_cases hki : k = i
          · rw [hji, hki]
          · rw [if_neg hki] at hk
            rw [h1 hlf k] at hk
            cases hk
        · rw [if_neg hji] at hj
          rw [h1 hlf j] at hj
          cases hj
      · intro j
        simp only [setPC_callers]
        by_cases hj : j = i
        · rw [if_pos hj]; exact trivial
        · rw [if_neg hj]; exact h4 j
  | poll k =>
    simp only [stepCaller, hpc]
    cases k with
    | zero =>
      exact lockInv_setPC_nc v st i _ ⟨h1, h2, h3, h4⟩ rfl (Or.inr rfl)
    | succ k2 =>
      cases hc : st.cacheVal with
      | none => exact lockInv_setPC_nc v st i _ ⟨h1, h2, h3, h4⟩ rfl trivial
      | some w =>
        exact lockInv_setPC_nc v st i _ ⟨h1, h2, h3, h4⟩ rfl
          (Or.inl (by rw [hval w hc]))
  | runProducer =>
    simp only [stepCaller, hpc]
    have hcritOld : inCritical (st.callers i) = true := by rw [hpc]; rfl
    have hlock : st.lockHeld = true := by
      cases hv : st.lockHeld
      · rw [h1 hv i] at hcritOld; cases hcritOld
      · rfl
    refine ⟨?_, ?_, h3, ?_⟩
    · intro hcontra
      rw [show (setPC st i (.store v)).lockHeld = st.lockHeld from rfl, hlock] at hcontra
      cases hcontra
    · intro j k hj hk
      simp only [setPC_callers] at hj hk
      by_cases hji : j = i
      · by_cases hki : k = i
        · rw [hji, hki]
        · rw [if_neg hki] at hk
          rw [hji]
          exact (h2 k i hk hcritOld).symm ▸ rfl
      · rw [if_neg hji] at hj
        by_cases hki : k = i
        · rw [hki]
          exact h2 j i hj hcritOld
        · rw [if_neg hki] at hk
          exact h2 j k hj hk
    · intro j
      simp only [setPC_callers]
      by_cases hj : j = i
      · rw [if_pos hj]; rfl
      · rw [if_neg hj]; exact h4 j
  | store w =>
    simp only [stepCaller, hpc]
    have hw : w = v := by
      have := h4 i
      rw [hpc] at this
      exact this
    have hcritOld : inCritical (st.callers i) = true := by rw [hpc]; rfl
    have hlock : st.lockHeld = true := by
      cases hv : st.lockHeld
      · rw [h1 hv i] at hcritOld; cases hcritOld
      · rfl
    refine ⟨?_, ?_, Or.inr (by rw [hw]), ?_⟩
    · intro hcontra
      rw [show ({ setPC st i (.releaseOk w) with cacheVal := some w } : LockWorld).lockHeld
          = st.lockHeld from rfl, hlock] at hcontra
      cases hcontra
    · intro j k hj hk
      simp only [setPC_callers] at hj hk
      by_cases hji : j = i
      · by_cases hki : k = i
        · rw [hji, hki]
        · rw [if_neg hki] at hk
          rw [hji]
          exact (h2 k i hk hcritOld).symm ▸ rfl
      · rw [if_neg hji] at hj
        by_cases hki : k = i
        · rw [hki]
          exact h2 j i hj hcritOld
        · rw [if_neg hki] at hk
          exact h2 j k hj hk
    · intro j
      simp only [setPC_callers]
      by_cases hj : j = i
      · rw [if_pos hj]; exact hw
      · rw [if_neg hj]; exact h4 j
  | releaseOk w =>
    simp only [stepCaller, hpc]
    have hw : w = v := by
      have := h4 i
      rw [hpc] at this
      exact this
    have hcritOld : inCritical (st.callers i) = true := by rw [hpc]; rfl
    refine ⟨?_, ?_, h3, ?_⟩
    · intro _ j
      simp only [setPC_callers]
      by_cases hj : j = i
      · rw [if_pos hj]; rfl
      · rw [if_neg hj]
        cases hcd : inCritical (st.callers j) with
        | false => rfl
        | true => exact absurd (h2 j i hcd hcritOld) hj
    · intro j k hj hk
      simp only [setPC_callers] at hj hk
      by_cases hji : j = i
      · rw [if_pos hji] at hj; cases hj
      · rw [if_neg hji] at hj
        exact absurd (h2 j i hj hcritOld) hji
    · intro j
      simp only [setPC_callers]
      by_cases hj : j = i
      · rw [if_pos hj]; exact Or.inl (by rw [hw])
      · rw [if_neg hj]; exact h4 j
  | releaseErr =>
    have := h4 i
    rw [hpc] at this
    cases this
  | done r =>
    simp only [stepCaller, hpc]
    exact ⟨h1, h2, h3, h4⟩

/-- C5: in the untimed interleaving model of GetOrSet - every Redis
command one atomic step, lock and value TTL expiry outside the model, so
all steps happen inside the lock's validity window - with a producer
that succeeds with value v, every schedule of concurrent callers
maintains the stampede-guard invariant: the producer's critical section
is occupied by at most one caller and only while the lock is held (so no
caller runs the producer while another caller's lock is up), and every
caller that has finished holds either the produced (or already cached)
value v or the distinct poll timeout error - never a second producer
result. -/
theorem getOrSet_stampede_guard (v : String) (sched : List Nat) :
    LockInv v (runLockWorld (Except.ok v) sched)
    ∧ (∀ i r, (runLockWorld (Except.ok v) sched).callers i = .done r →
        r = .value v ∨ r = .timeoutErr)
    ∧ (∀ i j, inCritical ((runLockWorld (Except.ok v) sched).callers i) = true →
        inCritical ((runLockWorld (Except.ok v) sched).callers j) = true → i = j) := by
  have hinit : LockInv v initLockWorld := by
    refine ⟨fun _ i => rfl, fun i j hi _ => ?_, Or.inl rfl, fun i => trivial⟩
    cases hi
  have hrun : ∀ (rest : List Nat) (st : LockWorld), LockInv v st →
      LockInv v (rest.foldl (stepCaller (Except.ok v)) st) := by
    intro rest
    induction rest with
    | nil => exact fun st h => h
    | cons i tail ih => exact fun st h => ih _ (stepCaller_preserves v st i h)
  have hinv : LockInv v (runLockWorld (Except.ok v) sched) :=
    hrun sched initLockWorld hinit
  refine ⟨hinv, ?_, hinv.2.1⟩
  intro i r hdone
  have := hinv.2.2.2 i
  rw [hdone] at this
  exact this

/-- C5 witness: the stampede-guard theorem evaluated on a concrete
two-caller schedule in which caller 0 misses, locks and produces while
caller 1 misses, fails to lock, polls and then reads the produced
value. -/
theorem getOrSet_stampede_guard_witness :
    LockInv "payload" (runLockWorld (Except.ok "payload") [0, 1, 0, 1, 0, 0, 1, 0])
    ∧ (runLockWorld (Except.ok "payload") [0, 1, 0, 1, 0, 0, 1, 0]).callers 0 =
        .done (.value "payload")
    ∧ (runLockWorld (Except.ok "payload") [0, 1, 0, 1, 0, 0, 1, 0]).callers 1 =
        .done (.value "payload") :=
  ⟨(getOrSet_stampede_guard "payload" [0, 1, 0, 1, 0, 0, 1, 0]).1, rfl, rfl⟩

theorem mem_takeWhile_isTrue (p : Char → Bool) :
    ∀ (l : List Char), ∀ c ∈ l.takeWhile p, p c = true := by
  intro l
  induction l with
  | nil => intro c hc; cases hc
  | cons a rest ih =>
    intro c hc
    rw [List.takeWhile_cons] at hc
    by_cases ha : p a = true
    · rw [if_pos ha] at hc
      rcases List.mem_cons.mp hc with rfl | hmem
      · exact ha
      · exact ih c hmem
    · rw [if_neg ha] at hc
      cases hc

theorem firstNumberToken_split :
    ∀ (cs tok : List Char), firstNumberToken cs = some tok →
    ∃ pre rest, cs = pre ++ (tok ++ rest)
      ∧ (∀ c ∈ pre, c.isDigit = false) ∧ numToken tok := by
  intro cs
  induction cs with
  | nil => intro tok h; cases h
  | cons c cs' ih =>
    intro tok h
    by_cases hc : c.isDigit = true
    · rw [firstNumberToken, if_pos hc] at h
      have hsplit := List.takeWhile_append_dropWhile (p := Char.isDigit) (l := c :: cs')
      have hdsne : (c :: cs').takeWhile Char.isDigit ≠ [] := by
        rw [List.takeWhile_cons, if_pos hc]
        exact List.cons_ne_nil _ _
      have hdsdig := mem_takeWhile_isTrue Char.isDigit (c :: cs')
      cases hdw : (c :: cs').dropWhile Char.isDigit with
      | nil =>
        rw [hdw] at h
        dsimp only at h
        obtain rfl : tok = (c :: cs').takeWhile Char.isDigit := (Option.some.inj h).symm
        refine ⟨[], [], ?_, by simp, (c :: cs').takeWhile Char.isDigit, [], hdsne,
          hdsdig, by simp, Or.inl rfl⟩
        calc c :: cs'
            = (c :: cs').takeWhile Char.isDigit ++ (c :: cs').dropWhile Char.isDigit :=
              hsplit.symm
          _ = [] ++ ((c :: cs').takeWhile Char.isDigit ++ []) := by rw [hdw]; simp
      | cons d rest2 =>
        rw [hdw] at h
        dsimp only at h
        by_cases hd : d = '.'
        · rw [if_pos hd] at h
          obtain rfl : tok = (c :: cs').takeWhile Char.isDigit ++
              '.' :: rest2.takeWhile Char.isDigit := (Option.some.inj h).symm
          refine ⟨[], rest2.dropWhile Char.isDigit, ?_, by simp,
            (c :: cs').takeWhile Char.isDigit, rest2.takeWhile Char.isDigit,
            hdsne, hdsdig, mem_takeWhile_isTrue Char.isDigit rest2, Or.inr rfl⟩
          have h2 := List.takeWhile_append_dropWhile (p := Char.isDigit) (l := rest2)
          calc c :: cs'
              = (c :: cs').takeWhile Char.isDigit ++ (c :: cs').dropWhile Char.isDigit :=
                hsplit.symm
            _ = (c :: cs').takeWhile Char.isDigit ++ ('.' :: rest2) := by
                rw [hdw, hd]
            _ = (c :: cs').takeWhile Char.isDigit ++
                ('.' :: (rest2.takeWhile Char.isDigit ++ rest2.dropWhile Char.isDigit)) := by
                rw [h2]
            _ = [] ++ (((c :: cs').takeWhile Char.isDigit ++
                '.' :: rest2.takeWhile Char.isDigit) ++ rest2.dropWhile Char.isDigit) := by
                simp
        · rw [if_neg hd] at h
          obtain rfl : tok = (c :: cs').takeWhile Char.isDigit := (Option.some.inj h).symm
          refine ⟨[], d :: rest2, ?_, by simp, (c :: cs').takeWhile Char.isDigit, [],
            hdsne, hdsdig, by simp, Or.inl rfl⟩
          calc c :: cs'
              = (c :: cs').takeWhile Char.isDigit ++ (c :: cs').dropWhile Char.isDigit :=
                hsplit.symm
            _ = [] ++ ((c :: cs').takeWhile Char.isDigit ++ (d :: rest2)) := by
                rw [hdw]; simp
    · rw [firstNumberToken, if_neg hc] at h
      obtain ⟨pre, rest, hcs, hpre, htok⟩ := ih tok h
      have hcf : c.isDigit = false := by
        cases hv : c.isDigit
        · rfl
        · exact absurd hv hc
      refine ⟨c :: pre, rest, by rw [List.cons_append, ← hcs], ?_, htok⟩
      intro x hx
      rcases List.mem_cons.mp hx with rfl | hmem
      · exact hcf
      · exact hpre x hmem

theorem collectLimit_mem (f : α → Option β) :
    ∀ (l : List α) (acc : List β) (lim : Nat) (b : β),
    b ∈ collectLimit f lim acc l → b ∈ acc ∨ ∃ a ∈ l, f a = some b := by
  intro l
  induction l with
  | nil => intro acc lim b h; exact Or.inl h
  | cons a rest ih =>
    intro acc lim b h
    rw [collectLimit] at h
    cases hf : f a with
    | none =>
      rw [hf] at h
      rcases ih acc lim b h with hacc | ⟨x, hx, hfx⟩
      · exact Or.inl hacc
      · exact Or.inr ⟨x, List.mem_cons_of_mem a hx, hfx⟩
    | some b2 =>
      rw [hf] at h
      dsimp only at h
      by_cases hle : lim ≤ (acc ++ [b2]).length
      · rw [if_pos hle] at h
        rcases List.mem_append.mp h with hacc | hb2
        · exact Or.inl hacc
        · rw [List.mem_singleton.mp hb2]
          exact Or.inr ⟨a, List.mem_cons_self a rest, hf⟩
      · rw [if_neg hle] at h
        rcases ih _ lim b h with hacc | ⟨x, hx, hfx⟩
        · rcases List.mem_append.mp hacc with hacc2 | hb2
          · exact Or.inl hacc2
          · rw [List.mem_singleton.mp hb2]
            exact Or.inr ⟨a, List.mem_cons_self a rest, hf⟩
        · exact Or.inr ⟨x, List.mem_cons_of_mem a hx, hfx⟩

theorem minScoreOf_eval (q : String) (tok : List Char) (x : ℚ)
    (hkw : (goContains (goToLower q) "above" || goContains (goToLower q) "threshold") = true)
    (htok : firstNumberToken (goToLower q).toList = some tok)
    (hx : parseGoFloat tok = x) (h0 : 0 ≤ x) (h1 : x ≤ 1) :
    minScoreOf q = x := by
  rw [minScoreOf, if_pos hkw, htok]
  dsimp only
  rw [hx, if_pos ⟨h0, h1⟩]

/-- C7 (amended): getArticlesByScore keeps only articles whose relevance
is at least the selected threshold; the threshold is the default 0.8
unless the lowercased query contains a threshold keyword ("above" or
"threshold") and the first decimal number anywhere in the query text -
not necessarily the number following the keyword - parses into [0,1], in
which case that first number becomes the threshold.  The spec's own
scenario "score above 0.85" still yields 0.85 because there the first
number does follow the keyword. -/
theorem byScore_threshold_selection (req : QueryRequest) (articles : List Article) :
    ((getArticlesByScoreClient req articles).all
      (fun a => decide (minScoreOf req.query ≤ a.relevanceScore)) = true)
    ∧ minScoreOf "score above 0.85" = 17/20
    ∧ (∀ q : String, minScoreOf q = 4/5 ∨
        ((goContains (goToLower q) "above" || goContains (goToLower q) "threshold") = true
          ∧ ∃ tok pre rest, (goToLower q).toList = pre ++ (tok ++ rest)
            ∧ (∀ c ∈ pre, c.isDigit = false)
            ∧ numToken tok
            ∧ minScoreOf q = parseGoFloat tok
            ∧ 0 ≤ minScoreOf q ∧ minScoreOf q ≤ 1)) := by
  refine ⟨?_, ?_, ?_⟩
  · rw [List.all_eq_true]
    intro dto hdto
    rw [decide_eq_true_eq]
    rw [getArticlesByScoreClient] at hdto
    obtain ⟨a, ha, rfl⟩ := List.mem_map.mp hdto
    rw [GetArticlesByScore] at ha
    rcases collectLimit_mem _ articles [] req.limit a ha with hacc | ⟨x, _, hfx⟩
    · cases hacc
    · by_cases hge : minScoreOf req.query ≤ x.relevanceScore
      · rw [if_pos hge] at hfx
        obtain rfl : x = a := Option.some.inj hfx
        exact hge
      · rw [if_neg hge] at hfx
        cases hfx
  · refine minScoreOf_eval _ ['0', '.', '8', '5'] _ (by decide) (by decide) ?_
      (by norm_num) (by norm_num)
    have h1 : parseGoFloat ['0', '.', '8', '5'] =
        ((0 : ℕ) : ℚ) + ((85 : ℕ) : ℚ) / 10 ^ 2 := rfl
    rw [h1]
    push_cast
    norm_num
  · intro q
    by_cases hkw : (goContains (goToLower q) "above" ||
        goContains (goToLower q) "threshold") = true
    · cases htok : firstNumberToken (goToLower q).toList with
      | none =>
        refine Or.inl ?_
        rw [minScoreOf, if_pos hkw, htok]
      | some tok =>
        by_cases hrange : 0 ≤ parseGoFloat tok ∧ parseGoFloat tok ≤ 1
        · have heq : minScoreOf q = parseGoFloat tok :=
            minScoreOf_eval q tok _ hkw htok rfl hrange.1 hrange.2
          obtain ⟨pre, rest, hcs, hpre, hnum⟩ := firstNumberToken_split _ tok htok
          exact Or.inr ⟨hkw, tok, pre, rest, hcs, hpre, hnum, heq,
            heq ▸ hrange.1, heq ▸ hrange.2⟩
        · refine Or.inl ?_
          rw [minScoreOf, if_pos hkw, htok]
          dsimp only
          rw [if_neg hrange]
    · refine Or.inl ?_
      rw [minScoreOf, if_neg hkw]

/-- C7 counterexample: in the query "0.3 news above 0.9" the decimal
number following the threshold keyword is 0.9, which parses into [0,1],
so the claim requires threshold 0.9; the code instead takes the first
number anywhere in the query and uses threshold 0.3, while the same
query without the leading number yields 0.9. -/
theorem minScore_first_number_counterexample :
    minScoreOf "0.3 news above 0.9" = 3/10
    ∧ minScoreOf "news above 0.9" = 9/10
    ∧ ((3 : ℚ)/10 ≠ 9/10) := by
  refine ⟨?_, ?_, by norm_num⟩
  · refine minScoreOf_eval _ ['0', '.', '3'] _ (by decide) (by decide) ?_
      (by norm_num) (by norm_num)
    have h1 : parseGoFloat ['0', '.', '3'] =
        ((0 : ℕ) : ℚ) + ((3 : ℕ) : ℚ) / 10 ^ 1 := rfl
    rw [h1]
    push_cast
    norm_num
  · refine minScoreOf_eval _ ['0', '.', '9'] _ (by decide) (by decide) ?_
      (by norm_num) (by norm_num)
    have h1 : parseGoFloat ['0', '.', '9'] =
        ((0 : ℕ) : ℚ) + ((9 : ℕ) : ℚ) / 10 ^ 1 := rfl
    rw [h1]
    push_cast
    norm_num
